import Mathlib

/-!
Verification of the raid-bot roster consistency engine.

This file gives a shallow embedding of the roster data model and the
operations of `db.py`, `views.py`, `utils.py` and `commands.py`
(signup/waitlist state, capacity enforcement, waitlist promotion,
reminder regeneration, schedule creation checks and role parsing), and
proves or refutes the specification claims about them.

Conventions of the embedding:
- A single event ("raid") is modelled; all tables are restricted to it.
- SQL rows become list elements; `ORDER BY created_at` /
  `ORDER BY role_name` reads become insertion sorts of the stored lists.
- Machine integers are `Int` (timestamps, user ids) or `Nat`
  (capacities, which the application validates to be non-negative).
- Python truthiness that the code relies on is modelled explicitly:
  `created_at or now` maps `none` and `some 0` to `now`.
-/

namespace RaidBot

/-- A row of `raid_signups` or `raid_waitlist` (both tables have the same
columns for a fixed raid): user id, role name, creation timestamp. -/
structure SignupRow where
  userId : Int
  roleName : String
  createdAt : Int
deriving DecidableEq, Repr

/-- A row of `raid_attendance_log` for the event (append-only). -/
structure LogRow where
  userId : Int
  roleName : String
  status : String
  recordedAt : Int
deriving DecidableEq, Repr

/-- A row of `raid_reminders` for the event. -/
structure ReminderRow where
  offset : Int
  remindAt : Int
  sent : Bool
deriving DecidableEq, Repr

/-- The stored state of one event: total capacity (`max_participants`),
the role table, the signup and waitlist tables, and the attendance log. -/
structure RaidState where
  maxParticipants : Nat
  roles : List (String × Nat)
  signups : List SignupRow
  waitlist : List SignupRow
  attendanceLog : List LogRow
deriving DecidableEq, Repr

/-- Python's `created_at or now`: `None` and `0` both fall back to `now`. -/
def orNow (createdAt : Option Int) (now : Int) : Int :=
  match createdAt with
  | none => now
  | some v => if v = 0 then now else v

/-- Membership test on a list of user ids (`user_id in removed_ids`). -/
def idMem (ids : List Int) (u : Int) : Bool :=
  ids.any (fun v => v == u)

/-- Dictionary lookup in the role map (`roles.get(name)` / `name in roles`). -/
def lookupRole (roles : List (String × Nat)) (name : String) : Option Nat :=
  (roles.find? (fun r => r.1 == name)).map (·.2)

/-- `get_signups` / `get_waitlist`: rows ordered by `created_at`. -/
def rowsByCreated (rows : List SignupRow) : List SignupRow :=
  List.insertionSort (fun a b => a.createdAt ≤ b.createdAt) rows

/-- Byte-order comparison of role names (SQLite's default `ORDER BY`
collation), as a computable Bool. -/
def strListLe : List Char → List Char → Bool
  | [], _ => true
  | _ :: _, [] => false
  | a :: as, b :: bs =>
      if a.toNat < b.toNat then true
      else if b.toNat < a.toNat then false
      else strListLe as bs

/-- `get_roles`: the role dictionary, in `ORDER BY role_name` order. -/
def rolesRead (roles : List (String × Nat)) : List (String × Nat) :=
  List.insertionSort (fun a b => strListLe a.1.toList b.1.toList = true) roles

/-- The user ids appearing in a list of signup/waitlist rows. -/
def usersOf (rows : List SignupRow) : List Int :=
  rows.map (·.userId)

/-- `record_attendance`: append a log row unless it would duplicate the
latest record (same role and status) for this user. -/
def recordAttendance (log : List LogRow) (u : Int) (role status : String)
    (ts : Int) : List LogRow :=
  match log.reverse.find? (fun l => l.userId == u) with
  | some last =>
      if last.roleName == role && last.status == status then log
      else log ++ [⟨u, role, status, ts⟩]
  | none => log ++ [⟨u, role, status, ts⟩]

/-- `add_signup`: insert a signup row and log status `main`. -/
def add_signup (st : RaidState) (u : Int) (role : String)
    (createdAt : Option Int) (now : Int) : RaidState :=
  let ts := orNow createdAt now
  { st with
    signups := st.signups ++ [⟨u, role, ts⟩],
    attendanceLog := recordAttendance st.attendanceLog u role "main" ts }

/-- `add_waitlist_entry`: merge into an existing entry for the user
(keeping the earliest timestamp) or insert a new one; log `waitlist`. -/
def add_waitlist_entry (st : RaidState) (u : Int) (role : String)
    (createdAt : Option Int) (now : Int) : RaidState :=
  let ts := orNow createdAt now
  match st.waitlist.find? (fun w => w.userId == u) with
  | some existing =>
      let merged := min existing.createdAt ts
      { st with
        waitlist := st.waitlist.map (fun w =>
          if w.userId == u then { w with roleName := role, createdAt := merged } else w),
        attendanceLog := recordAttendance st.attendanceLog u role "waitlist" merged }
  | none =>
      { st with
        waitlist := st.waitlist ++ [⟨u, role, ts⟩],
        attendanceLog := recordAttendance st.attendanceLog u role "waitlist" ts }

/-- `update_waitlist_role`: change the desired role in place; log `waitlist`. -/
def update_waitlist_role (st : RaidState) (u : Int) (role : String)
    (now : Int) : RaidState :=
  { st with
    waitlist := st.waitlist.map (fun w =>
      if w.userId == u then { w with roleName := role } else w),
    attendanceLog := recordAttendance st.attendanceLog u role "waitlist" now }

/-- `update_signup_role`: change the signup role in place (the row's
`created_at` is untouched); log `main`. -/
def update_signup_role (st : RaidState) (u : Int) (role : String)
    (now : Int) : RaidState :=
  { st with
    signups := st.signups.map (fun s =>
      if s.userId == u then { s with roleName := role } else s),
    attendanceLog := recordAttendance st.attendanceLog u role "main" now }

/-- `remove_signup`: delete the user's signup; if a row existed with a
truthy role name, log `removed`. -/
def remove_signup (st : RaidState) (u : Int) (now : Int) : RaidState :=
  match st.signups.find? (fun s => s.userId == u) with
  | some row =>
      { st with
        signups := st.signups.filter (fun s => !(s.userId == u)),
        attendanceLog :=
          if row.roleName = "" then st.attendanceLog
          else recordAttendance st.attendanceLog u row.roleName "removed" now }
  | none => { st with signups := st.signups.filter (fun s => !(s.userId == u)) }

/-- `remove_waitlist_entry`: delete the user's waitlist entry; unless the
log is suppressed, log `removed` for a pre-existing truthy role name. -/
def remove_waitlist_entry (st : RaidState) (u : Int) (suppressLog : Bool)
    (now : Int) : RaidState :=
  match st.waitlist.find? (fun w => w.userId == u) with
  | some row =>
      { st with
        waitlist := st.waitlist.filter (fun w => !(w.userId == u)),
        attendanceLog :=
          if !suppressLog && !(row.roleName == "") then
            recordAttendance st.attendanceLog u row.roleName "removed" now
          else st.attendanceLog }
  | none => { st with waitlist := st.waitlist.filter (fun w => !(w.userId == u)) }

/-- The body of the loop in `promote_waitlist`: walk the waitlist snapshot
in timestamp order, dropping entries whose role is gone or disabled,
stopping at the total-capacity bound, skipping entries whose role is full,
and promoting the rest while maintaining the running counters. -/
def promoteLoop (maxP : Nat) (roles : List (String × Nat)) (now : Int) :
    List SignupRow → RaidState → (String → Nat) → Nat → List (Int × String) →
    RaidState × List (Int × String)
  | [], st, _, _, promoted => (st, promoted)
  | e :: rest, st, counts, total, promoted =>
    match lookupRole roles e.roleName with
    | none =>
        promoteLoop maxP roles now rest
          (remove_waitlist_entry st e.userId false now) counts total promoted
    | some cap =>
      if cap = 0 then
        promoteLoop maxP roles now rest
          (remove_waitlist_entry st e.userId false now) counts total promoted
      else if maxP ≤ total then
        (st, promoted)
      else if cap ≤ counts e.roleName then
        promoteLoop maxP roles now rest st counts total promoted
      else
        let st1 := remove_waitlist_entry st e.userId true now
        let st2 := add_signup st1 e.userId e.roleName (some e.createdAt) now
        promoteLoop maxP roles now rest st2
          (fun n => if n == e.roleName then counts n + 1 else counts n)
          (total + 1) (promoted ++ [(e.userId, e.roleName)])

/-- `promote_waitlist`: promote eligible waitlist entries into the signup
set, in entry-timestamp order, returning the list of promotions. -/
def promote_waitlist (st : RaidState) (now : Int) :
    RaidState × List (Int × String) :=
  let roles := rolesRead st.roles
  if roles.isEmpty then (st, [])
  else
    let signups := rowsByCreated st.signups
    let waitlist := rowsByCreated st.waitlist
    let counts : String → Nat := fun n =>
      if (lookupRole roles n).isSome then
        signups.countP (fun s => s.roleName == n)
      else 0
    promoteLoop st.maxParticipants roles now waitlist st counts signups.length []

/-- Pass 1 of `enforce_signup_limits`: per-role overflow.  For each role,
the signups of that role beyond the first `capacity` (FIFO order, skipping
already-flagged users) are flagged for waitlisting. -/
def roleOverflowPass (signups : List SignupRow) :
    List (String × Nat) → List SignupRow × List Int → List SignupRow × List Int
  | [], acc => acc
  | (name, cap) :: rest, (wl, rm) =>
    let roleSignups :=
      signups.filter (fun s => s.roleName == name && !idMem rm s.userId)
    if cap < roleSignups.length then
      let overflow := roleSignups.drop cap
      roleOverflowPass signups rest
        (wl ++ overflow, rm ++ overflow.map (·.userId))
    else roleOverflowPass signups rest (wl, rm)

/-- Pass 2 of `enforce_signup_limits`: any not-yet-flagged signup whose
role no longer exists is flagged for removal. -/
def unknownRolePass (roles : List (String × Nat)) :
    List SignupRow → List SignupRow × List Int → List SignupRow × List Int
  | [], acc => acc
  | s :: rest, (tr, rm) =>
    if idMem rm s.userId then unknownRolePass roles rest (tr, rm)
    else if (lookupRole roles s.roleName).isNone then
      unknownRolePass roles rest (tr ++ [s], rm ++ [s.userId])
    else unknownRolePass roles rest (tr, rm)

/-- The conversion loop of `enforce_signup_limits`: each waitlist candidate
whose role still exists with capacity > 0 becomes a waitlist entry, the
others are demoted to removals (appended to `to_remove`). -/
def waitlistConversion (roles : List (String × Nat)) (now : Int) :
    List SignupRow → RaidState → List SignupRow → RaidState × List SignupRow
  | [], st, tr => (st, tr)
  | s :: rest, st, tr =>
    match lookupRole roles s.roleName with
    | some cap =>
        if 0 < cap then
          waitlistConversion roles now rest
            (add_waitlist_entry st s.userId s.roleName (some s.createdAt) now) tr
        else waitlistConversion roles now rest st (tr ++ [s])
    | none => waitlistConversion roles now rest st (tr ++ [s])

/-- The final logging loop of `enforce_signup_limits`: each removal is
logged with status `removed`. -/
def removalLogging (now : Int) : List SignupRow → List LogRow → List LogRow
  | [], log => log
  | s :: rest, log =>
      removalLogging now rest (recordAttendance log s.userId s.roleName "removed" now)

/-- The record returned by `enforce_signup_limits`. -/
structure EnforceReport where
  waitlisted : List (Int × String)
  removed : List (Int × String)
deriving DecidableEq, Repr

/-- The flagging phase of `enforce_signup_limits` (steps 1–3, before any
mutation): returns `(to_waitlist, to_remove)`. -/
def enforceFlags (maxP : Nat) (roles : List (String × Nat))
    (signups : List SignupRow) : List SignupRow × List SignupRow :=
  let ro := roleOverflowPass signups roles ([], [])
  let ur := unknownRolePass roles signups ([], ro.2)
  let remaining := signups.filter (fun s => !idMem ur.2 s.userId)
  let wl :=
    if maxP < remaining.length then ro.1 ++ remaining.drop maxP
    else ro.1
  (wl, ur.1)

/-- `enforce_signup_limits`: flag per-role overflow, signups of vanished
roles, and total-capacity overflow; delete the flagged signups; convert
waitlist candidates whose role still has capacity and demote the rest;
log removals; report the displaced users. -/
def enforce_signup_limits (st : RaidState) (now : Int) :
    RaidState × EnforceReport :=
  let roles := rolesRead st.roles
  let signups := rowsByCreated st.signups
  let fl := enforceFlags st.maxParticipants roles signups
  if fl.1.isEmpty && fl.2.isEmpty then (st, ⟨[], []⟩)
  else
    let deleted := (fl.1 ++ fl.2).map (·.userId)
    let st1 := { st with signups := st.signups.filter (fun s => !idMem deleted s.userId) }
    let conv := waitlistConversion roles now fl.1 st1 fl.2
    let st3 := { conv.1 with attendanceLog := removalLogging now conv.2 conv.1.attendanceLog }
    (st3,
      ⟨(fl.1.filter (fun s => (lookupRole roles s.roleName).isSome)).map
          (fun s => (s.userId, s.roleName)),
        (conv.2.filter (fun s => (lookupRole roles s.roleName).isNone)).map
          (fun s => (s.userId, s.roleName))⟩)

/-- The set of user ids whose signups `enforce_signup_limits` deletes
(the users of `to_waitlist ++ to_remove` at deletion time). -/
def enforceDeleted (st : RaidState) : List Int :=
  let fl := enforceFlags st.maxParticipants (rolesRead st.roles)
    (rowsByCreated st.signups)
  (fl.1 ++ fl.2).map (·.userId)

/-- `views.handle_signup` (database effects only): the signup state
machine for `request(role)` — role switch, self-promotion from the
waitlist, waitlist role update, fresh join, or waitlist entry. -/
def handle_signup (st : RaidState) (user : Int) (roleName : String)
    (now : Int) : RaidState :=
  let roles := rolesRead st.roles
  if (lookupRole roles roleName).isNone then st
  else
    let currentSignup := st.signups.find? (fun s => s.userId == user)
    let waitEntry := st.waitlist.find? (fun w => w.userId == user)
    let signups := rowsByCreated st.signups
    let otherSignups := signups.filter (fun s => !(s.userId == user))
    let totalCount := otherSignups.length + (if currentSignup.isSome then 1 else 0)
    let roleCounts : String → Nat := fun n =>
      if (lookupRole roles n).isSome then
        otherSignups.countP (fun s => s.roleName == n)
      else 0
    match currentSignup with
    | some cur =>
      if cur.roleName == roleName then st
      else if (lookupRole roles roleName).getD 0 ≤ roleCounts roleName then st
      else (promote_waitlist (update_signup_role st user roleName now) now).1
    | none =>
      match waitEntry with
      | some _ =>
        if totalCount < st.maxParticipants ∧
            roleCounts roleName < (lookupRole roles roleName).getD 0 then
          (promote_waitlist
            (add_signup (remove_waitlist_entry st user true now) user roleName
              (some now) now) now).1
        else update_waitlist_role st user roleName now
      | none =>
        if totalCount < st.maxParticipants ∧
            roleCounts roleName < (lookupRole roles roleName).getD 0 then
          (promote_waitlist (add_signup st user roleName (some now) now) now).1
        else add_waitlist_entry st user roleName (some now) now

/-- `views.handle_unsubscribe` (database effects only): remove the user's
signup and waitlist entry, then run the promotion sweep. -/
def handle_unsubscribe (st : RaidState) (user : Int) (now : Int) : RaidState :=
  (promote_waitlist
    (remove_waitlist_entry (remove_signup st user now) user false now) now).1

/-- `replace_roles`: swap the role set; delete signups and waitlist
entries whose role was dropped; log `removed` for each of them. -/
def replace_roles (st : RaidState) (newRoles : List (String × Nat))
    (now : Int) : RaidState :=
  let existingSignups := rowsByCreated st.signups
  let existingWaitlist := rowsByCreated st.waitlist
  let st1 :=
    { st with
      roles := newRoles,
      signups := st.signups.filter (fun s => (lookupRole newRoles s.roleName).isSome),
      waitlist := st.waitlist.filter (fun w => (lookupRole newRoles w.roleName).isSome) }
  let log1 := existingSignups.foldl (fun log s =>
    if (lookupRole newRoles s.roleName).isSome then log
    else recordAttendance log s.userId s.roleName "removed" now) st1.attendanceLog
  let log2 := existingWaitlist.foldl (fun log w =>
    if (lookupRole newRoles w.roleName).isSome then log
    else recordAttendance log w.userId w.roleName "removed" now) log1
  { st1 with attendanceLog := log2 }

/-- The public roster operations of claim C5. -/
inductive RosterOp where
  | signupReq (user : Int) (role : String) (now : Int)
  | leave (user : Int) (now : Int)
  | enforceLimits (now : Int)
  | promoteSweep (now : Int)
  | rolesReplace (roles : List (String × Nat)) (now : Int)

/-- Apply one public roster operation to the event state. -/
def applyRosterOp (st : RaidState) : RosterOp → RaidState
  | .signupReq u r n => handle_signup st u r n
  | .leave u n => handle_unsubscribe st u n
  | .enforceLimits n => (enforce_signup_limits st n).1
  | .promoteSweep n => (promote_waitlist st n).1
  | .rolesReplace rs n => replace_roles st rs n

/-- The Signup/WaitlistEntry exclusivity invariant: no user holds both a
signup and a waitlist entry for the event. -/
def ExclusiveMembership (st : RaidState) : Prop :=
  ∀ u : Int, ¬(u ∈ usersOf st.signups ∧ u ∈ usersOf st.waitlist)

/-- One `INSERT INTO raid_reminders`: the table's primary key is
`(raid_id, offset)`, so inserting a duplicate offset is a constraint
violation (`none`). -/
def insertReminder (rs : List ReminderRow) (off remindAt : Int) :
    Option (List ReminderRow) :=
  if rs.any (fun r => r.offset == off) then none
  else some (rs ++ [⟨off, remindAt, false⟩])

/-- The insertion loop of `reset_raid_reminders`: one reminder per offset
with fire time `starts_at - offset`, floored at `now`. -/
def buildReminders (startsAt now : Int) :
    List Int → List ReminderRow → Option (List ReminderRow)
  | [], acc => some acc
  | off :: rest, acc =>
      let remindAt := if startsAt - off < now then now else startsAt - off
      match insertReminder acc off remindAt with
      | none => none
      | some acc2 => buildReminders startsAt now rest acc2

/-- `reset_raid_reminders`: delete all reminders of the event, then, if
the start is nonzero and in the future, regenerate one per offset.  The
delete and the inserts run in one transaction: a constraint violation
rolls everything back, leaving the old reminders in place. -/
def reset_raid_reminders (old : List ReminderRow) (startsAt now : Int)
    (offsets : List Int) : List ReminderRow :=
  if startsAt ≠ 0 ∧ now < startsAt then
    match buildReminders startsAt now offsets [] with
    | some rs => rs
    | none => old
  else []

/-- `create_schedule` / `update_schedule_next_run`: the stored
`generate_at` value. -/
def schedule_generate_at (nextRunAt leadTimeHours : Int) : Int :=
  max (nextRunAt - leadTimeHours * 3600) 0

/-- The lead-time validation of `commands.schedule_create`: a missing
lead time defaults to `max(interval_days*24 - 1, 1)`; an explicit
non-positive lead time is rejected; a lead time of at least
`interval_days*24` hours is rejected. -/
def schedule_create_lead_check (intervalDays : Int)
    (leadTimeHours : Option Int) : Option Int :=
  match leadTimeHours with
  | none =>
      let leadValue := max (intervalDays * 24 - 1) 1
      if intervalDays * 24 ≤ leadValue then none else some leadValue
  | some l =>
      if l ≤ 0 then none
      else if intervalDays * 24 ≤ l then none else some l

/-- The whitespace set of Python `str.strip()` (ASCII part). -/
def pySpace (c : Char) : Bool :=
  c = ' ' || c = '\t' || c = '\n' || c = '\r' || c = '\x0b' || c = '\x0c'

/-- Python `str.strip()` on a character list. -/
def pyStrip (l : List Char) : List Char :=
  ((l.dropWhile pySpace).reverse.dropWhile pySpace).reverse

/-- Python `str.split(",")` on a character list. -/
def splitComma : List Char → List (List Char)
  | [] => [[]]
  | c :: rest =>
      if c = ',' then [] :: splitComma rest
      else
        match splitComma rest with
        | h :: t => (c :: h) :: t
        | [] => [[c]]

/-- Python `str.split(":", 1)`: split at the first colon, `none` when the
string contains no colon. -/
def splitFirstColon : List Char → Option (List Char × List Char)
  | [] => none
  | c :: rest =>
      if c = ':' then some ([], rest)
      else (splitFirstColon rest).map (fun p => (c :: p.1, p.2))

/-- A nonempty all-digit character list as a natural number. -/
def parseDigits : List Char → Option Nat
  | [] => none
  | l => go l 0
where
  go : List Char → Nat → Option Nat
    | [], acc => some acc
    | c :: rest, acc =>
        if c.isDigit then go rest (acc * 10 + (c.toNat - '0'.toNat))
        else none

/-- Python `int()` on an already-stripped string: an optional sign
followed by digits. -/
def parsePyInt (l : List Char) : Option Int :=
  match l with
  | '+' :: rest => (parseDigits rest).map Int.ofNat
  | '-' :: rest => (parseDigits rest).map (fun n => -(Int.ofNat n))
  | _ => (parseDigits l).map Int.ofNat

/-- Python dict assignment `result[name] = capacity`: overwrite the value
of an existing key in place, otherwise append. -/
def upsertRole (acc : List (String × Int)) (name : String) (cap : Int) :
    List (String × Int) :=
  if acc.any (fun p => p.1 == name) then
    acc.map (fun p => if p.1 == name then (name, cap) else p)
  else acc ++ [(name, cap)]

/-- The chunk loop of `utils.parse_roles`. -/
def parseRolesLoop : List (List Char) → List (String × Int) →
    Except String (List (String × Int))
  | [], acc =>
      if acc.isEmpty then Except.error "At least one role must be specified"
      else Except.ok acc
  | chunk :: rest, acc =>
      let part := pyStrip chunk
      if part.isEmpty then parseRolesLoop rest acc
      else
        match splitFirstColon part with
        | none => Except.error "Invalid role chunk. Use name:count"
        | some (nameRaw, countRaw) =>
            let name := String.mk (pyStrip nameRaw)
            match parsePyInt (pyStrip countRaw) with
            | none => Except.error "Invalid count for role"
            | some capacity =>
                if capacity < 0 then
                  Except.error "Role capacity must be at least 0"
                else parseRolesLoop rest (upsertRole acc name capacity)

/-- `utils.parse_roles`: the empty string short-circuits to an empty
role map; otherwise the comma-separated `name:capacity` chunks are
parsed, and an empty result is an error. -/
def parse_roles (s : String) : Except String (List (String × Int)) :=
  if s = "" then Except.ok []
  else parseRolesLoop (splitComma s.toList) []

/-- The reminder row `reset_raid_reminders` generates for one offset. -/
def genReminder (startsAt now off : Int) : ReminderRow :=
  ⟨off, if startsAt - off < now then now else startsAt - off, false⟩

/-- The §8 scenario: capacity 2, roles tank:1 and healer:1, signups
(A,tank),(B,tank),(C,healer) in join order. -/
def scenarioState : RaidState :=
  { maxParticipants := 2,
    roles := [("tank", 1), ("healer", 1)],
    signups := [⟨100, "tank", 10⟩, ⟨200, "tank", 11⟩, ⟨300, "healer", 12⟩],
    waitlist := [],
    attendanceLog := [] }

/-- One signup on a capacity-0 role (the C3 failing input). -/
def capZeroExample : RaidState :=
  { maxParticipants := 5,
    roles := [("tank", 0)],
    signups := [⟨1, "tank", 10⟩],
    waitlist := [],
    attendanceLog := [] }

/-- A full tank slot with an earlier tank waitlist entry blocking nothing:
user 2 waits for the full tank role, user 3 (later) waits for the free
healer role (the C2 counterexample input). -/
def fifoBlockedExample : RaidState :=
  { maxParticipants := 2,
    roles := [("healer", 1), ("tank", 1)],
    signups := [⟨1, "tank", 10⟩],
    waitlist := [⟨2, "tank", 20⟩, ⟨3, "healer", 30⟩],
    attendanceLog := [] }

/-- User 1 signed as tank with user 2 waitlisted for tank (the C8
counterexample input: switching user 1 to healer frees the tank slot). -/
def switchExample : RaidState :=
  { maxParticipants := 2,
    roles := [("healer", 1), ("tank", 1)],
    signups := [⟨1, "tank", 10⟩],
    waitlist := [⟨2, "tank", 20⟩],
    attendanceLog := [] }

/-- A waitlist entry whose stored timestamp is 0 (the C10 counterexample
input: Python `created_at or now` treats 0 as missing). -/
def zeroTimestampExample : RaidState :=
  { maxParticipants := 5,
    roles := [("tank", 1)],
    signups := [],
    waitlist := [⟨7, "tank", 0⟩],
    attendanceLog := [] }

/-- A promotable waitlist entry with a nonzero timestamp (C10 witness). -/
def promoteCarryExample : RaidState :=
  { maxParticipants := 5,
    roles := [("tank", 2)],
    signups := [],
    waitlist := [⟨7, "tank", 3⟩],
    attendanceLog := [] }

/-! ## Shared basic lemmas -/

theorem idMem_iff (rm : List Int) (u : Int) : idMem rm u = true ↔ u ∈ rm := by
  simp [idMem]

theorem idMem_eq_false (rm : List Int) (u : Int) :
    idMem rm u = false ↔ u ∉ rm := by
  rw [← Bool.not_eq_true, not_iff_not]
  exact idMem_iff rm u

theorem idMem_nil (u : Int) : idMem [] u = false := rfl

theorem ite_lt_max (a b : Int) : (if a < b then b else a) = max a b := by
  split
  · exact (max_eq_right (le_of_lt (by assumption))).symm
  · exact (max_eq_left (le_of_not_lt (by assumption))).symm

/-! ## C7: schedule creation arithmetic -/

/-- C7 counterexample: at `next_run_at = 0`, `lead_time_hours = 1` the
stored `generate_at` is the clamped value `0`, not
`next_run_at - lead_time_hours*3600 = -3600` as the claim requires. -/
theorem generate_at_clamp_cex :
    schedule_generate_at 0 1 = 0 ∧ schedule_generate_at 0 1 ≠ 0 - 1 * 3600 := by
  decide

/-- C7 (amended): schedule creation accepts a lead time only when
`lead*3600 < interval_days*86400` holds strictly; the stored
`generate_at` equals `max(next_run_at - lead*3600, 0)` at creation and at
every next-run advance, hence equals `next_run_at - lead*3600` whenever
`next_run_at ≥ lead*3600`. -/
theorem schedule_lead_and_generate :
    (∀ (intervalDays leadValue : Int) (leadTimeHours : Option Int),
        schedule_create_lead_check intervalDays leadTimeHours = some leadValue →
        leadValue * 3600 < intervalDays * 86400)
    ∧ (∀ nextRunAt lead : Int,
        schedule_generate_at nextRunAt lead = max (nextRunAt - lead * 3600) 0)
    ∧ (∀ nextRunAt lead : Int, lead * 3600 ≤ nextRunAt →
        schedule_generate_at nextRunAt lead = nextRunAt - lead * 3600) := by
  refine ⟨?_, fun _ _ => rfl, ?_⟩
  · intro i v lead? h
    cases lead? with
    | none =>
        simp only [schedule_create_lead_check] at h
        split at h
        · exact absurd h (by simp)
        · have hv := Option.some.inj h
          rename_i hle
          generalize hm : (max (i * 24 - 1) 1 : Int) = m at hv hle
          subst hv
          omega
    | some l =>
        simp only [schedule_create_lead_check] at h
        split at h
        · exact absurd h (by simp)
        · split at h
          · exact absurd h (by simp)
          · have hv := Option.some.inj h
            subst hv
            rename_i hpos hle
            omega
  · intro n l h
    unfold schedule_generate_at
    exact max_eq_left (by omega)

/-- C7 witness: the §8 scenario values — interval 7 days with lead 167 h
is accepted and satisfies the strict inequality, and the `generate_at`
formula is exact at a realistic timestamp. -/
theorem schedule_lead_and_generate_witness :
    schedule_create_lead_check 7 (some 167) = some 167
    ∧ (167 : Int) * 3600 < 7 * 86400
    ∧ schedule_generate_at 604800 167 = 604800 - 167 * 3600 :=
  ⟨by decide,
   schedule_lead_and_generate.1 7 167 (some 167) (by decide),
   schedule_lead_and_generate.2.2 604800 167 (by decide)⟩

/-! ## C6: reminder regeneration -/

theorem buildReminders_nodup (startsAt now : Int) (offsets : List Int) :
    ∀ acc : List ReminderRow, offsets.Nodup →
      (∀ off ∈ offsets, ∀ r ∈ acc, r.offset ≠ off) →
      buildReminders startsAt now offsets acc =
        some (acc ++ offsets.map (genReminder startsAt now)) := by
  induction offsets with
  | nil => intro acc _ _; simp [buildReminders]
  | cons off rest ih =>
      intro acc hnd hdisj
      have hany : acc.any (fun r => r.offset == off) = false := by
        rw [← Bool.not_eq_true, List.any_eq_true]
        rintro ⟨r, hr, hbeq⟩
        exact hdisj off (List.mem_cons_self _ _) r hr (by simpa using hbeq)
      have hins : insertReminder acc off
          (if startsAt - off < now then now else startsAt - off) =
            some (acc ++ [genReminder startsAt now off]) := by
        simp [insertReminder, hany, genReminder]
      simp only [buildReminders]
      rw [hins]
      show buildReminders startsAt now rest (acc ++ [genReminder startsAt now off]) = _
      rw [ih (acc ++ [genReminder startsAt now off]) hnd.of_cons ?_]
      · simp [genReminder]
      · intro off2 hoff2 r hr
        rcases List.mem_append.mp hr with h1 | h2
        · exact hdisj off2 (List.mem_cons_of_mem _ hoff2) r h1
        · have hr2 : r = genReminder startsAt now off := by simpa using h2
          rw [hr2]
          show ¬off = off2
          intro hcontra
          rw [← hcontra] at hoff2
          exact (List.nodup_cons.mp hnd).1 hoff2

theorem filter_int_nodup (l : List Int) (hl : l.Nodup) (off : Int)
    (hm : off ∈ l) : l.filter (fun x => x == off) = [off] := by
  induction l with
  | nil => cases hm
  | cons x t ih =>
      have hnd := List.nodup_cons.mp hl
      rcases List.mem_cons.mp hm with h | h
      · subst h
        have ht : t.filter (fun y => y == off) = [] := by
          rw [List.filter_eq_nil_iff]
          intro a ha hax
          have ha2 : a = off := by simpa using hax
          rw [ha2] at ha
          exact hnd.1 ha
        simp only [List.filter_cons, beq_self_eq_true, if_true, ht]
      · have hx : (x == off) = false := by
          rw [beq_eq_false_iff_ne]
          intro he
          exact hnd.1 (by rw [he]; exact h)
        simp [List.filter_cons, hx, ih hnd.2 h]

theorem filter_map_genReminder (startsAt now off : Int) (l : List Int) :
    (l.map (genReminder startsAt now)).filter (fun r => r.offset == off) =
      (l.filter (fun x => x == off)).map (genReminder startsAt now) := by
  induction l with
  | nil => rfl
  | cons x t ih =>
      simp only [List.map_cons, List.filter_cons]
      by_cases hx : (x == off) = true
      · have hg : ((genReminder startsAt now x).offset == off) = true := hx
        simp [hg, hx, ih]
      · have hx2 : (x == off) = false := by simpa using hx
        have hg : ((genReminder startsAt now x).offset == off) = false := hx2
        simp [hg, hx2, ih]

/-- C6 counterexample: with duplicated configured offsets (allowed by the
spec's data model) the `(raid_id, offset)` primary key aborts the insert
transaction, so no reminder exists for the offset afterwards and the old
reminders are not deleted. -/
theorem reset_reminders_duplicate_cex :
    ((reset_raid_reminders [] 1000 0 [60, 60]).filter
        (fun r => r.offset == 60)).length = 0
    ∧ reset_raid_reminders [⟨999, 5, true⟩] 1000 0 [60, 60] =
        [⟨999, 5, true⟩] := by
  decide

/-- C6 (amended): for pairwise-distinct configured offsets, regenerating
an event's reminders replaces them atomically: if the start is nonzero
and strictly in the future, exactly one unsent reminder exists per
offset with fire time `max(start - offset, now)` (so each strictly
positive offset's fire time lies between `now` and `start`), and no
other reminders exist; if the start is 0 or not in the future, no
reminders exist for the event afterwards. -/
theorem reset_reminders_spec (old : List ReminderRow) (startsAt now : Int)
    (offsets : List Int) (hnodup : offsets.Nodup) :
    (startsAt ≠ 0 ∧ now < startsAt →
      (∀ off ∈ offsets,
        (reset_raid_reminders old startsAt now offsets).filter
            (fun r => r.offset == off) = [⟨off, max (startsAt - off) now, false⟩])
      ∧ (∀ r ∈ reset_raid_reminders old startsAt now offsets,
          0 < r.offset → now ≤ r.remindAt ∧ r.remindAt ≤ startsAt)
      ∧ (reset_raid_reminders old startsAt now offsets).length = offsets.length)
    ∧ (¬(startsAt ≠ 0 ∧ now < startsAt) →
        reset_raid_reminders old startsAt now offsets = []) := by
  constructor
  · intro hfut
    have hres : reset_raid_reminders old startsAt now offsets =
        offsets.map (genReminder startsAt now) := by
      unfold reset_raid_reminders
      rw [if_pos hfut,
        buildReminders_nodup startsAt now offsets [] hnodup (by simp)]
      simp
    refine ⟨?_, ?_, ?_⟩
    · intro off hoff
      rw [hres, filter_map_genReminder, filter_int_nodup offsets hnodup off hoff]
      simp [genReminder, ite_lt_max]
    · intro r hr hpos
      rw [hres] at hr
      obtain ⟨off, hoff, rfl⟩ := List.mem_map.mp hr
      simp only [genReminder] at hpos ⊢
      constructor
      · split <;> omega
      · split <;> omega
    · rw [hres]; simp
  · intro h
    unfold reset_raid_reminders
    rw [if_neg h]

/-- C6 witness: regenerating at `now = 0` for a future start 1000 with
offsets 60 and 2000 yields exactly one unsent reminder at offset 60 with
the clamped fire time. -/
theorem reset_reminders_spec_witness :
    (reset_raid_reminders [⟨999, 5, true⟩] 1000 0 [60, 2000]).filter
        (fun r => r.offset == 60) = [⟨60, max (1000 - 60) 0, false⟩] :=
  ((reset_reminders_spec [⟨999, 5, true⟩] 1000 0 [60, 2000] (by decide)).1
    (by decide)).1 60 (by decide)

/-! ## C9: role specification parsing -/

theorem pyStrip_eq_nil_iff (l : List Char) :
    pyStrip l = [] ↔ ∀ c ∈ l, pySpace c = true := by
  unfold pyStrip
  rw [List.reverse_eq_nil_iff, List.dropWhile_eq_nil_iff]
  constructor
  · intro h c hc
    have hsplit := List.takeWhile_append_dropWhile pySpace l
    rw [← hsplit] at hc
    rcases List.mem_append.mp hc with h1 | h2
    · exact List.mem_takeWhile_imp h1
    · exact h c (List.mem_reverse.mpr h2)
  · intro h c hc
    exact h c ((List.dropWhile_sublist pySpace).subset (List.mem_reverse.mp hc))

theorem splitComma_ne_nil (l : List Char) : splitComma l ≠ [] := by
  induction l with
  | nil => simp [splitComma]
  | cons c rest ih =>
      unfold splitComma
      split
      · simp
      · cases h : splitComma rest with
        | nil => exact absurd h ih
        | cons hd tl => simp [h]

theorem splitComma_space (l : List Char) (hall : ∀ c ∈ l, pySpace c = true) :
    ∀ chunk ∈ splitComma l, ∀ c ∈ chunk, pySpace c = true := by
  induction l with
  | nil =>
      intro chunk hchunk c hc
      simp [splitComma] at hchunk
      subst hchunk
      cases hc
  | cons x rest ih =>
      intro chunk hchunk c hc
      have hx : pySpace x = true := hall x (List.mem_cons_self _ _)
      have hxc : ¬x = ',' := by
        intro hcomma
        rw [hcomma] at hx
        exact absurd hx (by decide)
      have hrest : ∀ c ∈ rest, pySpace c = true :=
        fun c hc => hall c (List.mem_cons_of_mem _ hc)
      unfold splitComma at hchunk
      rw [if_neg hxc] at hchunk
      cases h : splitComma rest with
      | nil => exact absurd h (splitComma_ne_nil rest)
      | cons hd tl =>
          rw [h] at hchunk
          rcases List.mem_cons.mp hchunk with h1 | h1
          · subst h1
            rcases List.mem_cons.mp hc with h2 | h2
            · rw [h2]; exact hx
            · exact ih hrest hd (by rw [h]; exact List.mem_cons_self _ _) c h2
          · exact ih hrest chunk (by rw [h]; exact List.mem_cons_of_mem _ h1) c hc

theorem parseRolesLoop_space (chunks : List (List Char))
    (hall : ∀ ch ∈ chunks, ∀ c ∈ ch, pySpace c = true) :
    parseRolesLoop chunks [] =
      Except.error "At least one role must be specified" := by
  induction chunks with
  | nil => rfl
  | cons ch rest ih =>
      have hstrip : pyStrip ch = [] :=
        (pyStrip_eq_nil_iff ch).mpr (hall ch (List.mem_cons_self _ _))
      unfold parseRolesLoop
      rw [hstrip]
      simp only [List.isEmpty_nil, if_true]
      exact ih (fun c hc => hall c (List.mem_cons_of_mem _ hc))

theorem upsertRole_nonneg (acc : List (String × Int)) (name : String)
    (cap : Int) (hacc : ∀ p ∈ acc, 0 ≤ p.2) (hcap : 0 ≤ cap) :
    ∀ p ∈ upsertRole acc name cap, 0 ≤ p.2 := by
  intro p hp
  unfold upsertRole at hp
  split at hp
  · obtain ⟨q, hq, hpq⟩ := List.mem_map.mp hp
    by_cases hqn : (q.1 == name) = true
    · rw [if_pos hqn] at hpq
      rw [← hpq]
      exact hcap
    · rw [if_neg hqn] at hpq
      rw [← hpq]
      exact hacc q hq
  · rcases List.mem_append.mp hp with h1 | h1
    · exact hacc p h1
    · have : p = (name, cap) := by simpa using h1
      rw [this]
      exact hcap

theorem parseRolesLoop_ok (chunks : List (List Char)) :
    ∀ (acc m : List (String × Int)), parseRolesLoop chunks acc = Except.ok m →
      (∀ p ∈ acc, 0 ≤ p.2) → m ≠ [] ∧ ∀ p ∈ m, 0 ≤ p.2 := by
  induction chunks with
  | nil =>
      intro acc m h hacc
      unfold parseRolesLoop at h
      split at h
      · exact absurd h (by simp)
      · have hm := Except.ok.inj h
        subst hm
        rename_i hne
        refine ⟨?_, hacc⟩
        intro hnil
        rw [hnil] at hne
        exact hne rfl
  | cons ch rest ih =>
      intro acc m h hacc
      unfold parseRolesLoop at h
      dsimp only [] at h
      split at h
      · exact ih acc m h hacc
      · split at h
        · exact absurd h (by simp)
        · rename_i p hcolon
          split at h
          · exact absurd h (by simp)
          · rename_i capacity hcap
            split at h
            · exact absurd h (by simp)
            · rename_i hneg
              exact ih _ m h
                (upsertRole_nonneg acc _ capacity hacc (by omega))

/-- C9 counterexample: `parse_roles("")` does not raise — it returns an
empty role map, contradicting both "empty after trimming is an error"
and "at least one pair per accepted input". -/
theorem parse_roles_empty_ok_cex :
    parse_roles "" = Except.ok []
    ∧ ∀ msg, parse_roles "" ≠ Except.error msg := by
  refine ⟨rfl, ?_⟩
  intro msg h
  simp [parse_roles] at h

/-- C9 (amended): parsing a nonempty role-specification string that is
empty after trimming raises a validation error; the empty string is the
exception and yields an empty role map without error; every other
accepted input yields at least one pair, all with non-negative
capacities. -/
theorem parse_roles_spec :
    (∀ s : String, s ≠ "" → pyStrip s.toList = [] →
        parse_roles s = Except.error "At least one role must be specified")
    ∧ parse_roles "" = Except.ok []
    ∧ ∀ (s : String) (m : List (String × Int)), s ≠ "" →
        parse_roles s = Except.ok m → m ≠ [] ∧ ∀ p ∈ m, 0 ≤ p.2 := by
  refine ⟨?_, rfl, ?_⟩
  · intro s hs hstrip
    unfold parse_roles
    rw [if_neg hs]
    exact parseRolesLoop_space _
      (splitComma_space s.toList ((pyStrip_eq_nil_iff s.toList).mp hstrip))
  · intro s m hs h
    unfold parse_roles at h
    rw [if_neg hs] at h
    exact parseRolesLoop_ok _ [] m h (by simp)

/-- C9 witness: a whitespace-only string errors; `"tank:2"` parses to a
nonempty map. -/
theorem parse_roles_spec_witness :
    parse_roles " " = Except.error "At least one role must be specified"
    ∧ [(("tank" : String), (2 : Int))] ≠ [] :=
  ⟨parse_roles_spec.1 " " (by decide) (by decide),
   (parse_roles_spec.2.2 "tank:2" [("tank", 2)] (by decide) (by rfl)).1⟩

/-! ## Promotion sweep lemmas, C2, C10, C8, C3 -/

theorem remove_waitlist_signups (st : RaidState) (u : Int) (b : Bool)
    (now : Int) : (remove_waitlist_entry st u b now).signups = st.signups := by
  unfold remove_waitlist_entry
  split <;> rfl

/-- C2 counterexample: user 2 (earlier) waits for the full tank role while
the total capacity is not reached; the sweep does not stop there — the
later entry of user 3 for the free healer role is promoted, and user 2
stays on the waitlist. -/
theorem promote_no_skip_cex :
    (promote_waitlist fifoBlockedExample 100).2 = [(3, "healer")]
    ∧ (promote_waitlist fifoBlockedExample 100).1.waitlist =
        [⟨2, "tank", 20⟩] := by
  decide

/-- C2 (amended): when the sweep reaches an entry whose role exists with
capacity > 0 but has no free slot while the total capacity is not yet
reached, the entry is skipped in place (state, counters and promotions
unchanged) and the sweep continues with the later entries, which may
still be promoted; the sweep stops without examining later entries only
once the total count has reached the event capacity. -/
theorem promote_skip_full_role (maxP : Nat) (roles : List (String × Nat))
    (now : Int) (e : SignupRow) (rest : List SignupRow) (st : RaidState)
    (counts : String → Nat) (total : Nat) (promoted : List (Int × String))
    (cap : Nat) (hrole : lookupRole roles e.roleName = some cap)
    (hcap : 0 < cap) :
    (total < maxP → cap ≤ counts e.roleName →
      promoteLoop maxP roles now (e :: rest) st counts total promoted =
        promoteLoop maxP roles now rest st counts total promoted)
    ∧ (maxP ≤ total →
      promoteLoop maxP roles now (e :: rest) st counts total promoted =
        (st, promoted)) := by
  constructor
  · intro htotal hfull
    simp only [promoteLoop, hrole]
    rw [if_neg (by omega), if_neg (by omega), if_pos hfull]
  · intro htotal
    simp only [promoteLoop, hrole]
    rw [if_neg (by omega), if_pos htotal]

/-- C2 witness: a concrete skip — full tank role, total below capacity. -/
theorem promote_skip_full_role_witness :
    promoteLoop 2 [("tank", 1)] 100 [⟨2, "tank", 20⟩] scenarioState
        (fun _ => 1) 1 [] =
      promoteLoop 2 [("tank", 1)] 100 [] scenarioState (fun _ => 1) 1 [] :=
  (promote_skip_full_role 2 [("tank", 1)] 100 ⟨2, "tank", 20⟩ []
    scenarioState (fun _ => 1) 1 [] 1 (by rfl) (by decide)).1
    (by decide) (by decide)

theorem promoteLoop_signups_from (maxP : Nat) (roles : List (String × Nat))
    (now : Int) (entries : List SignupRow) :
    ∀ (st : RaidState) (counts : String → Nat) (total : Nat)
      (promoted : List (Int × String)),
      ∀ s ∈ (promoteLoop maxP roles now entries st counts total promoted).1.signups,
        s ∈ st.signups ∨ ∃ e ∈ entries, s.userId = e.userId ∧
          s.roleName = e.roleName ∧
          s.createdAt = (if e.createdAt = 0 then now else e.createdAt) := by
  induction entries with
  | nil =>
      intro st counts total promoted s hs
      exact Or.inl (by simpa [promoteLoop] using hs)
  | cons e rest ih =>
      intro st counts total promoted s hs
      have weaken :
          ∀ st2 : RaidState, st2.signups = st.signups →
            s ∈ (promoteLoop maxP roles now rest st2 counts total promoted).1.signups →
            s ∈ st.signups ∨ ∃ e2 ∈ e :: rest, s.userId = e2.userId ∧
              s.roleName = e2.roleName ∧
              s.createdAt = (if e2.createdAt = 0 then now else e2.createdAt) := by
        intro st2 heq hmem
        rcases ih st2 counts total promoted s hmem with h | ⟨e2, he2, hf⟩
        · exact Or.inl (heq ▸ h)
        · exact Or.inr ⟨e2, List.mem_cons_of_mem _ he2, hf⟩
      cases hrole : lookupRole roles e.roleName with
      | none =>
          simp only [promoteLoop, hrole] at hs
          exact weaken _ (remove_waitlist_signups st e.userId false now) hs
      | some cap =>
          simp only [promoteLoop, hrole] at hs
          by_cases h0 : cap = 0
          · rw [if_pos h0] at hs
            exact weaken _ (remove_waitlist_signups st e.userId false now) hs
          · rw [if_neg h0] at hs
            by_cases h1 : maxP ≤ total
            · rw [if_pos h1] at hs
              exact Or.inl hs
            · rw [if_neg h1] at hs
              by_cases h2 : cap ≤ counts e.roleName
              · rw [if_pos h2] at hs
                exact weaken st rfl hs
              · rw [if_neg h2] at hs
                rcases ih _ _ _ _ s hs with h | ⟨e2, he2, hf⟩
                · have hmem : s ∈ st.signups ++
                      [⟨e.userId, e.roleName, orNow (some e.createdAt) now⟩] := by
                    simpa [add_signup, remove_waitlist_signups] using h
                  rcases List.mem_append.mp hmem with h3 | h3
                  · exact Or.inl h3
                  · have hseq :
                        s = ⟨e.userId, e.roleName, orNow (some e.createdAt) now⟩ := by
                      simpa using h3
                    exact Or.inr ⟨e, List.mem_cons_self _ _,
                      by simp [hseq], by simp [hseq], by simp [hseq, orNow]⟩
                · exact Or.inr ⟨e2, List.mem_cons_of_mem _ he2, hf⟩

/-- C10 counterexample: a waitlist entry whose stored timestamp is 0 is
promoted with the promotion time (100), not its stored timestamp, because
`add_signup` uses Python's `created_at or now`. -/
theorem promote_zero_timestamp_cex :
    zeroTimestampExample.waitlist = [⟨7, "tank", 0⟩]
    ∧ (promote_waitlist zeroTimestampExample 100).1.signups =
        [⟨7, "tank", 100⟩] := by
  decide

/-- C10 (amended): every signup present after a promotion sweep either
predates the sweep or stems from a waitlist entry whose user, role, and —
whenever it is nonzero — original entry timestamp are carried over; an
entry with timestamp 0 instead receives the promotion time (a Python
`or`-falsiness fallback in `add_signup`). -/
theorem promote_preserves_request_time (st : RaidState) (now : Int) :
    ∀ s ∈ (promote_waitlist st now).1.signups,
      s ∈ st.signups ∨ ∃ e ∈ st.waitlist, s.userId = e.userId ∧
        s.roleName = e.roleName ∧
        s.createdAt = (if e.createdAt = 0 then now else e.createdAt) := by
  intro s hs
  unfold promote_waitlist at hs
  dsimp only at hs
  split at hs
  · exact Or.inl hs
  · rcases promoteLoop_signups_from _ _ _ _ _ _ _ _ s hs with h | ⟨e, he, hf⟩
    · exact Or.inl h
    · refine Or.inr ⟨e, ?_, hf⟩
      unfold rowsByCreated at he
      exact (List.perm_insertionSort _ st.waitlist).subset he

/-- C10 witness: at a nonzero-timestamp waitlist entry, the promoted
signup carries the original request time 3. -/
theorem promote_preserves_request_time_witness :
    (⟨7, "tank", 3⟩ : SignupRow) ∈ promoteCarryExample.signups
    ∨ ∃ e ∈ promoteCarryExample.waitlist,
        (⟨7, "tank", 3⟩ : SignupRow).userId = e.userId
        ∧ (⟨7, "tank", 3⟩ : SignupRow).roleName = e.roleName
        ∧ (⟨7, "tank", 3⟩ : SignupRow).createdAt =
            (if e.createdAt = 0 then 100 else e.createdAt) :=
  promote_preserves_request_time promoteCarryExample 100 ⟨7, "tank", 3⟩
    (by decide)

theorem promoteLoop_signups_append (maxP : Nat) (roles : List (String × Nat))
    (now : Int) (entries : List SignupRow) :
    ∀ (st : RaidState) (counts : String → Nat) (total : Nat)
      (promoted : List (Int × String)),
      ∃ extra,
        (promoteLoop maxP roles now entries st counts total promoted).1.signups =
          st.signups ++ extra := by
  induction entries with
  | nil =>
      intro st counts total promoted
      exact ⟨[], by simp [promoteLoop]⟩
  | cons e rest ih =>
      intro st counts total promoted
      cases hrole : lookupRole roles e.roleName with
      | none =>
          obtain ⟨extra, hex⟩ :=
            ih (remove_waitlist_entry st e.userId false now) counts total promoted
          refine ⟨extra, ?_⟩
          simp only [promoteLoop, hrole]
          rw [hex, remove_waitlist_signups]
      | some cap =>
          by_cases h0 : cap = 0
          · obtain ⟨extra, hex⟩ :=
              ih (remove_waitlist_entry st e.userId false now) counts total promoted
            refine ⟨extra, ?_⟩
            simp only [promoteLoop, hrole]
            rw [if_pos h0, hex, remove_waitlist_signups]
          · by_cases h1 : maxP ≤ total
            · refine ⟨[], ?_⟩
              simp only [promoteLoop, hrole]
              rw [if_neg h0, if_pos h1, List.append_nil]
            · by_cases h2 : cap ≤ counts e.roleName
              · obtain ⟨extra, hex⟩ := ih st counts total promoted
                refine ⟨extra, ?_⟩
                simp only [promoteLoop, hrole]
                rw [if_neg h0, if_neg h1, if_pos h2, hex]
              · obtain ⟨extra, hex⟩ :=
                  ih (add_signup (remove_waitlist_entry st e.userId true now)
                      e.userId e.roleName (some e.createdAt) now)
                    (fun n => if n == e.roleName then counts n + 1 else counts n)
                    (total + 1) (promoted ++ [(e.userId, e.roleName)])
                refine ⟨⟨e.userId, e.roleName, orNow (some e.createdAt) now⟩ :: extra, ?_⟩
                simp only [promoteLoop, hrole]
                rw [if_neg h0, if_neg h1, if_neg h2, hex]
                simp [add_signup, remove_waitlist_signups]

theorem promote_signups_append (st : RaidState) (now : Int) :
    ∃ extra, (promote_waitlist st now).1.signups = st.signups ++ extra := by
  unfold promote_waitlist
  dsimp only
  split
  · exact ⟨[], by simp⟩
  · exact promoteLoop_signups_append _ _ _ _ _ _ _ _

/-- C8 counterexample: user 1 switches from tank to healer (healer has a
free slot); the switch triggers the promotion sweep, which promotes the
waitlisted user 2 into the vacated tank slot — the waitlist does not stay
unchanged. -/
theorem role_switch_promotes_waitlist_cex :
    switchExample.waitlist = [⟨2, "tank", 20⟩]
    ∧ (handle_signup switchExample 1 "healer" 100).waitlist = []
    ∧ (handle_signup switchExample 1 "healer" 100).signups =
        [⟨1, "healer", 10⟩, ⟨2, "tank", 20⟩] := by
  decide

/-- C8 (amended): for a signed-up user requesting a different role with a
free slot (counting all signups but their own), the switch itself is in
place: the requester's signup keeps its join timestamp and only its role
name changes, and every other pre-existing signup is retained unchanged;
the subsequent promotion sweep may then promote waitlisted users
(appending signups and removing their waitlist entries).  Requesting the
currently held role is rejected and changes nothing. -/
theorem role_switch_in_place (st : RaidState) (u : Int) (newRole : String)
    (now : Int) (cur : SignupRow) (cap : Nat)
    (hcur : st.signups.find? (fun s => s.userId == u) = some cur)
    (hlook : lookupRole (rolesRead st.roles) newRole = some cap) :
    ((cur.roleName == newRole) = false →
      ((rowsByCreated st.signups).filter (fun s => !(s.userId == u))).countP
          (fun s => s.roleName == newRole) < cap →
      (∃ extra, (handle_signup st u newRole now).signups =
          st.signups.map (fun s =>
            if s.userId == u then { s with roleName := newRole } else s) ++ extra)
      ∧ (handle_signup st u newRole now).signups.find? (fun s => s.userId == u) =
          some { cur with roleName := newRole }
      ∧ ∀ s ∈ st.signups, (s.userId == u) = false →
          s ∈ (handle_signup st u newRole now).signups)
    ∧ ((cur.roleName == newRole) = true →
        handle_signup st u newRole now = st) := by
  constructor
  · intro hnotsame hfree
    have hmain : handle_signup st u newRole now =
        (promote_waitlist (update_signup_role st u newRole now) now).1 := by
      simp only [handle_signup, hlook, hcur, Option.isNone_some,
        Bool.false_eq_true, if_false, Option.isSome_some, Option.getD_some,
        if_true, hnotsame]
      rw [if_neg (by omega)]
    obtain ⟨extra, hex⟩ :=
      promote_signups_append (update_signup_role st u newRole now) now
    have hupd : (update_signup_role st u newRole now).signups =
        st.signups.map (fun s =>
          if s.userId == u then { s with roleName := newRole } else s) := rfl
    rw [hupd] at hex
    have hshape : (handle_signup st u newRole now).signups =
        st.signups.map (fun s =>
          if s.userId == u then { s with roleName := newRole } else s) ++ extra := by
      rw [hmain, hex]
    refine ⟨⟨extra, hshape⟩, ?_, ?_⟩
    · rw [hshape, List.find?_append]
      have hcomp : (fun s : SignupRow => s.userId == u) ∘
          (fun s : SignupRow =>
            if s.userId == u then { s with roleName := newRole } else s) =
          fun s : SignupRow => s.userId == u := by
        funext s
        simp only [Function.comp]
        split <;> rfl
      rw [List.find?_map, hcomp, hcur]
      have hu := List.find?_some hcur
      simp only [Option.map_some']
      have hfcur : (if cur.userId == u then
          { cur with roleName := newRole } else cur) =
            { cur with roleName := newRole } := by
        rw [if_pos hu]
      rw [hfcur]
      rfl
    · intro s hs hne
      rw [hshape]
      refine List.mem_append_left _ ?_
      exact List.mem_map.mpr ⟨s, hs, by simp [hne]⟩
  · intro hsame
    simp only [handle_signup, hlook, hcur, Option.isNone_some,
      Bool.false_eq_true, if_false, hsame, if_true]

/-- C8 witness: the concrete switch of user 1 from tank to healer in
`switchExample`. -/
theorem role_switch_in_place_witness :
    (∃ extra, (handle_signup switchExample 1 "healer" 100).signups =
        switchExample.signups.map (fun s =>
          if s.userId == 1 then { s with roleName := "healer" } else s) ++ extra)
    ∧ (handle_signup switchExample 1 "healer" 100).signups.find?
        (fun s => s.userId == 1) = some ⟨1, "healer", 10⟩
    ∧ ∀ s ∈ switchExample.signups, (s.userId == 1) = false →
        s ∈ (handle_signup switchExample 1 "healer" 100).signups :=
  (role_switch_in_place switchExample 1 "healer" 100 ⟨1, "tank", 10⟩ 1
    (by rfl) (by rfl)).1 (by decide) (by decide)

/-- C3 (code-bug evaluation): at the failing input — one signup on a
capacity-0 role — `enforce_signup_limits` deletes the signup, creates no
waitlist entry, and logs status `removed`, yet reports the user under
`waitlisted` and not under `removed`. -/
theorem enforce_report_zero_capacity_eval :
    (enforce_signup_limits capZeroExample 100).2 = ⟨[(1, "tank")], []⟩
    ∧ (enforce_signup_limits capZeroExample 100).1.signups = []
    ∧ (enforce_signup_limits capZeroExample 100).1.waitlist = []
    ∧ (enforce_signup_limits capZeroExample 100).1.attendanceLog =
        [⟨1, "tank", "removed", 100⟩] := by
  decide

/-! ## Capacity enforcement lemmas (C1, C4) -/

theorem filter_excl_sublist (l : List SignupRow) (p : SignupRow → Bool)
    (rm rm2 : List Int) (hsub : ∀ u ∈ rm, u ∈ rm2) :
    List.Sublist (l.filter (fun s => p s && !idMem rm2 s.userId))
      (l.filter (fun s => p s && !idMem rm s.userId)) := by
  apply List.monotone_filter_right
  intro s h
  rw [Bool.and_eq_true] at h ⊢
  refine ⟨h.1, ?_⟩
  have h2 := h.2
  rw [Bool.not_eq_true'] at h2 ⊢
  rw [idMem_eq_false] at h2 ⊢
  exact fun hc => h2 (hsub _ hc)

theorem filter_excl_bound (signups : List SignupRow) (p : SignupRow → Bool)
    (cap : Nat) (rm rmF : List Int) (hsub : ∀ u ∈ rm, u ∈ rmF)
    (hov : ∀ s ∈ (signups.filter (fun s => p s && !idMem rm s.userId)).drop cap,
        s.userId ∈ rmF) :
    (signups.filter (fun s => p s && !idMem rmF s.userId)).length ≤ cap := by
  have hpoint : ∀ s : SignupRow,
      ((!idMem rmF s.userId) && (p s && !idMem rm s.userId)) =
        (p s && !idMem rmF s.userId) := by
    intro s
    by_cases hF : idMem rmF s.userId = true
    · simp [hF]
    · have hF2 : idMem rmF s.userId = false := eq_false_of_ne_true hF
      have hr : idMem rm s.userId = false := by
        rw [idMem_eq_false] at hF2 ⊢
        exact fun hc => hF2 (hsub _ hc)
      simp [hF2, hr]
  have hB : signups.filter (fun s => p s && !idMem rmF s.userId) =
      (signups.filter (fun s => p s && !idMem rm s.userId)).filter
        (fun s => !idMem rmF s.userId) := by
    rw [List.filter_filter]
    exact (List.filter_congr (fun x _ => hpoint x)).symm
  rw [hB]
  set A := signups.filter (fun s => p s && !idMem rm s.userId) with hA
  have hsplit : A = A.take cap ++ A.drop cap := (List.take_append_drop cap A).symm
  rw [hsplit, List.filter_append]
  have hdropnil : (A.drop cap).filter (fun s => !idMem rmF s.userId) = [] := by
    rw [List.filter_eq_nil_iff]
    intro a ha hcontra
    rw [Bool.not_eq_true', idMem_eq_false] at hcontra
    exact hcontra (hov a ha)
  rw [hdropnil, List.append_nil]
  calc ((A.take cap).filter (fun s => !idMem rmF s.userId)).length
      ≤ (A.take cap).length := List.length_filter_le _ _
    _ ≤ cap := List.length_take_le _ _

theorem roleOverflowPass_append (signups : List SignupRow)
    (L : List (String × Nat)) :
    ∀ (wl : List SignupRow) (rm : List Int),
      ∃ extra, roleOverflowPass signups L (wl, rm) =
        (wl ++ extra, rm ++ extra.map (·.userId)) := by
  induction L with
  | nil => intro wl rm; exact ⟨[], by simp [roleOverflowPass]⟩
  | cons hd rest ih =>
      intro wl rm
      obtain ⟨name, cap⟩ := hd
      simp only [roleOverflowPass]
      split
      · obtain ⟨extra, hex⟩ := ih
          (wl ++ (signups.filter
            (fun s => s.roleName == name && !idMem rm s.userId)).drop cap)
          (rm ++ ((signups.filter
            (fun s => s.roleName == name && !idMem rm s.userId)).drop cap).map
              (·.userId))
        refine ⟨(signups.filter
            (fun s => s.roleName == name && !idMem rm s.userId)).drop cap ++ extra,
          ?_⟩
        rw [hex]
        simp [List.append_assoc]
      · exact ih wl rm

theorem roleOverflowPass_bound (signups : List SignupRow)
    (L : List (String × Nat)) :
    ∀ (wl : List SignupRow) (rm : List Int), ∀ p ∈ L,
      (signups.filter (fun s => s.roleName == p.1 &&
          !idMem (roleOverflowPass signups L (wl, rm)).2 s.userId)).length ≤ p.2 := by
  induction L with
  | nil => intro wl rm p hp; cases hp
  | cons hd rest ih =>
      intro wl rm p hp
      obtain ⟨name, cap⟩ := hd
      rcases List.mem_cons.mp hp with heq | hmem
      · subst heq
        dsimp only
        simp only [roleOverflowPass]
        split
        · rename_i hover
          obtain ⟨extra, hex⟩ := roleOverflowPass_append signups rest
            (wl ++ (signups.filter
              (fun s => s.roleName == name && !idMem rm s.userId)).drop cap)
            (rm ++ ((signups.filter
              (fun s => s.roleName == name && !idMem rm s.userId)).drop cap).map
                (·.userId))
          rw [hex]
          apply filter_excl_bound signups _ cap rm
          · intro u hu
            exact List.mem_append_left _ (List.mem_append_left _ hu)
          · intro s hs
            exact List.mem_append_left _
              (List.mem_append_right _ (List.mem_map_of_mem _ hs))
        · rename_i hnover
          obtain ⟨extra, hex⟩ := roleOverflowPass_append signups rest wl rm
          rw [hex]
          apply filter_excl_bound signups _ cap rm
          · intro u hu
            exact List.mem_append_left _ hu
          · intro s hs
            rw [List.drop_eq_nil_of_le (by omega)] at hs
            cases hs
      · simp only [roleOverflowPass]
        split
        · exact ih _ _ p hmem
        · exact ih _ _ p hmem

theorem unknownRolePass_spec (roles : List (String × Nat))
    (ss : List SignupRow) :
    ∀ (tr : List SignupRow) (rm : List Int),
      ∃ extra,
        unknownRolePass roles ss (tr, rm) = (tr ++ extra, rm ++ extra.map (·.userId))
        ∧ ∀ s ∈ ss, (lookupRole roles s.roleName).isNone = true →
            s.userId ∈ rm ++ extra.map (·.userId) := by
  induction ss with
  | nil =>
      intro tr rm
      exact ⟨[], by simp [unknownRolePass], by intro s hs; cases hs⟩
  | cons s rest ih =>
      intro tr rm
      by_cases hmem : idMem rm s.userId = true
      · obtain ⟨extra, hex, hcov⟩ := ih tr rm
        refine ⟨extra, ?_, ?_⟩
        · simp only [unknownRolePass, hmem, if_true]
          exact hex
        · intro s2 hs2 hiso
          rcases List.mem_cons.mp hs2 with heq | h2
          · subst heq
            exact List.mem_append_left _ ((idMem_iff _ _).mp hmem)
          · exact hcov s2 h2 hiso
      · have hmem2 : idMem rm s.userId = false := eq_false_of_ne_true hmem
        by_cases hnone : (lookupRole roles s.roleName).isNone = true
        · obtain ⟨extra, hex, hcov⟩ := ih (tr ++ [s]) (rm ++ [s.userId])
          refine ⟨s :: extra, ?_, ?_⟩
          · simp only [unknownRolePass, hmem2, Bool.false_eq_true, if_false,
              hnone, if_true]
            rw [hex]
            simp [List.append_assoc]
          · intro s2 hs2 hiso
            rcases List.mem_cons.mp hs2 with heq | h2
            · subst heq
              simp
            · have := hcov s2 h2 hiso
              simpa [List.append_assoc] using this
        · have hnone2 : (lookupRole roles s.roleName).isNone = false :=
            eq_false_of_ne_true hnone
          obtain ⟨extra, hex, hcov⟩ := ih tr rm
          refine ⟨extra, ?_, ?_⟩
          · simp only [unknownRolePass, hmem2, Bool.false_eq_true, if_false,
              hnone2]
            exact hex
          · intro s2 hs2 hiso
            rcases List.mem_cons.mp hs2 with heq | h2
            · subst heq
              rw [hiso] at hnone2
              cases hnone2
            · exact hcov s2 h2 hiso

theorem add_waitlist_signups (st : RaidState) (u : Int) (role : String)
    (c : Option Int) (now : Int) :
    (add_waitlist_entry st u role c now).signups = st.signups := by
  unfold add_waitlist_entry
  split <;> rfl

theorem add_waitlist_roles (st : RaidState) (u : Int) (role : String)
    (c : Option Int) (now : Int) :
    (add_waitlist_entry st u role c now).roles = st.roles := by
  unfold add_waitlist_entry
  split <;> rfl

theorem add_waitlist_maxP (st : RaidState) (u : Int) (role : String)
    (c : Option Int) (now : Int) :
    (add_waitlist_entry st u role c now).maxParticipants = st.maxParticipants := by
  unfold add_waitlist_entry
  split <;> rfl

theorem waitlistConversion_signups (roles : List (String × Nat)) (now : Int)
    (l : List SignupRow) :
    ∀ (st : RaidState) (tr : List SignupRow),
      (waitlistConversion roles now l st tr).1.signups = st.signups := by
  induction l with
  | nil => intro st tr; rfl
  | cons s rest ih =>
      intro st tr
      cases h : lookupRole roles s.roleName with
      | none =>
          simp only [waitlistConversion, h]
          exact ih st (tr ++ [s])
      | some cap =>
          simp only [waitlistConversion, h]
          split
          · rw [ih]
            exact add_waitlist_signups st s.userId s.roleName (some s.createdAt) now
          · exact ih st (tr ++ [s])

theorem waitlistConversion_roles (roles : List (String × Nat)) (now : Int)
    (l : List SignupRow) :
    ∀ (st : RaidState) (tr : List SignupRow),
      (waitlistConversion roles now l st tr).1.roles = st.roles := by
  induction l with
  | nil => intro st tr; rfl
  | cons s rest ih =>
      intro st tr
      cases h : lookupRole roles s.roleName with
      | none =>
          simp only [waitlistConversion, h]
          exact ih st (tr ++ [s])
      | some cap =>
          simp only [waitlistConversion, h]
          split
          · rw [ih]
            exact add_waitlist_roles st s.userId s.roleName (some s.createdAt) now
          · exact ih st (tr ++ [s])

theorem waitlistConversion_maxP (roles : List (String × Nat)) (now : Int)
    (l : List SignupRow) :
    ∀ (st : RaidState) (tr : List SignupRow),
      (waitlistConversion roles now l st tr).1.maxParticipants =
        st.maxParticipants := by
  induction l with
  | nil => intro st tr; rfl
  | cons s rest ih =>
      intro st tr
      cases h : lookupRole roles s.roleName with
      | none =>
          simp only [waitlistConversion, h]
          exact ih st (tr ++ [s])
      | some cap =>
          simp only [waitlistConversion, h]
          split
          · rw [ih]
            exact add_waitlist_maxP st s.userId s.roleName (some s.createdAt) now
          · exact ih st (tr ++ [s])

theorem enforce_signups_eq (st : RaidState) (now : Int) :
    (enforce_signup_limits st now).1.signups =
      st.signups.filter (fun s => !idMem (enforceDeleted st) s.userId) := by
  unfold enforce_signup_limits enforceDeleted
  dsimp only
  split
  · rename_i hempty
    rw [Bool.and_eq_true, List.isEmpty_iff, List.isEmpty_iff] at hempty
    rw [hempty.1, hempty.2]
    simp [idMem]
  · rw [waitlistConversion_signups]

theorem enforce_roles_eq (st : RaidState) (now : Int) :
    (enforce_signup_limits st now).1.roles = st.roles := by
  unfold enforce_signup_limits
  dsimp only
  split
  · rfl
  · rw [waitlistConversion_roles]

theorem enforce_maxP_eq (st : RaidState) (now : Int) :
    (enforce_signup_limits st now).1.maxParticipants = st.maxParticipants := by
  unfold enforce_signup_limits
  dsimp only
  split
  · rfl
  · rw [waitlistConversion_maxP]

theorem enforceDeleted_sub_aux (st : RaidState) :
    ∀ u ∈ (roleOverflowPass (rowsByCreated st.signups) (rolesRead st.roles)
        ([], [])).2, u ∈ enforceDeleted st := by
  intro u hu
  obtain ⟨extra, hex⟩ := roleOverflowPass_append (rowsByCreated st.signups)
    (rolesRead st.roles) [] []
  unfold enforceDeleted enforceFlags
  dsimp only
  rw [hex] at hu ⊢
  dsimp only at hu ⊢
  rw [List.nil_append] at hu
  obtain ⟨s, hs, rfl⟩ := List.mem_map.mp hu
  refine List.mem_map_of_mem _ ?_
  refine List.mem_append_left _ ?_
  split
  · exact List.mem_append_left _ (by simpa using hs)
  · simpa using hs

theorem enforceDeleted_per_role (st : RaidState) :
    ∀ p ∈ rolesRead st.roles,
      ((rowsByCreated st.signups).filter (fun s => s.roleName == p.1 &&
          !idMem (enforceDeleted st) s.userId)).length ≤ p.2 := by
  intro p hp
  have hbound := roleOverflowPass_bound (rowsByCreated st.signups)
    (rolesRead st.roles) [] [] p hp
  have hsubl := filter_excl_sublist (rowsByCreated st.signups)
    (fun s => s.roleName == p.1)
    ((roleOverflowPass (rowsByCreated st.signups) (rolesRead st.roles) ([], [])).2)
    (enforceDeleted st) (enforceDeleted_sub_aux st)
  exact le_trans hsubl.length_le hbound

theorem enforceDeleted_unknown (st : RaidState) :
    ∀ s ∈ rowsByCreated st.signups,
      (lookupRole (rolesRead st.roles) s.roleName).isNone = true →
      s.userId ∈ enforceDeleted st := by
  intro s hs hiso
  obtain ⟨extraU, hexU, hcov⟩ := unknownRolePass_spec (rolesRead st.roles)
    (rowsByCreated st.signups) []
    ((roleOverflowPass (rowsByCreated st.signups) (rolesRead st.roles) ([], [])).2)
  have hin := hcov s hs hiso
  rcases List.mem_append.mp hin with h1 | h1
  · exact enforceDeleted_sub_aux st s.userId h1
  · unfold enforceDeleted enforceFlags
    dsimp only
    rw [hexU]
    dsimp only
    obtain ⟨s2, hs2, heq⟩ := List.mem_map.mp h1
    rw [← heq]
    refine List.mem_map_of_mem _ ?_
    exact List.mem_append_right _ (by simpa using hs2)

theorem enforceDeleted_total (st : RaidState) :
    ((rowsByCreated st.signups).filter
        (fun s => !idMem (enforceDeleted st) s.userId)).length
      ≤ st.maxParticipants := by
  have hurs : ∀ u ∈ (unknownRolePass (rolesRead st.roles) (rowsByCreated st.signups)
      ([], (roleOverflowPass (rowsByCreated st.signups) (rolesRead st.roles)
        ([], [])).2)).2, u ∈ enforceDeleted st := by
    obtain ⟨extraU, hexU, hcov⟩ := unknownRolePass_spec (rolesRead st.roles)
      (rowsByCreated st.signups) []
      ((roleOverflowPass (rowsByCreated st.signups) (rolesRead st.roles) ([], [])).2)
    intro u hu
    rw [hexU] at hu
    dsimp only at hu
    rcases List.mem_append.mp hu with h1 | h1
    · exact enforceDeleted_sub_aux st u h1
    · unfold enforceDeleted enforceFlags
      dsimp only
      rw [hexU]
      dsimp only
      obtain ⟨s2, hs2, heq⟩ := List.mem_map.mp h1
      rw [← heq]
      refine List.mem_map_of_mem _ ?_
      exact List.mem_append_right _ (by simpa using hs2)
  set sorted := rowsByCreated st.signups with hsorted
  set roles := rolesRead st.roles with hroles
  set ur2 := (unknownRolePass roles sorted
    ([], (roleOverflowPass sorted roles ([], [])).2)).2 with hur2
  set remaining := sorted.filter (fun s => !idMem ur2 s.userId) with hrem
  have hpoint : ∀ s : SignupRow,
      ((!idMem (enforceDeleted st) s.userId) && !idMem ur2 s.userId) =
        (!idMem (enforceDeleted st) s.userId) := by
    intro s
    by_cases hd : idMem (enforceDeleted st) s.userId = true
    · simp [hd]
    · have hd2 : idMem (enforceDeleted st) s.userId = false :=
        eq_false_of_ne_true hd
      have hu2 : idMem ur2 s.userId = false := by
        rw [idMem_eq_false] at hd2 ⊢
        exact fun hc => hd2 (hurs _ hc)
      simp [hd2, hu2]
  have hstep : sorted.filter (fun s => !idMem (enforceDeleted st) s.userId) =
      remaining.filter (fun s => !idMem (enforceDeleted st) s.userId) := by
    rw [hrem, List.filter_filter]
    exact (List.filter_congr (fun x _ => hpoint x)).symm
  rw [hstep]
  by_cases hpos : st.maxParticipants < remaining.length
  · have hdropdel : ∀ s ∈ remaining.drop st.maxParticipants,
        s.userId ∈ enforceDeleted st := by
      intro s hs
      unfold enforceDeleted enforceFlags
      dsimp only
      rw [← hsorted, ← hroles, ← hur2, ← hrem]
      refine List.mem_map_of_mem _ (List.mem_append_left _ ?_)
      rw [if_pos hpos]
      exact List.mem_append_right _ hs
    rw [show remaining = remaining.take st.maxParticipants ++
        remaining.drop st.maxParticipants from (List.take_append_drop _ _).symm,
      List.filter_append]
    have hdropnil : (remaining.drop st.maxParticipants).filter
        (fun s => !idMem (enforceDeleted st) s.userId) = [] := by
      rw [List.filter_eq_nil_iff]
      intro a ha hcontra
      rw [Bool.not_eq_true', idMem_eq_false] at hcontra
      exact hcontra (hdropdel a ha)
    rw [hdropnil, List.append_nil]
    calc ((remaining.take st.maxParticipants).filter
          (fun s => !idMem (enforceDeleted st) s.userId)).length
        ≤ (remaining.take st.maxParticipants).length := List.length_filter_le _ _
      _ ≤ st.maxParticipants := List.length_take_le _ _
  · have hle : (remaining.filter
        (fun s => !idMem (enforceDeleted st) s.userId)).length ≤
          remaining.length := List.length_filter_le _ _
    omega

/-- C1: for every event and every configuration of roles and signups,
after `enforce_signup_limits` the number of remaining signups is at most
the event's total capacity, and every role's remaining signups are at
most that role's capacity. -/
theorem enforce_capacity_bounds (st : RaidState) (now : Int) :
    (enforce_signup_limits st now).1.signups.length ≤ st.maxParticipants
    ∧ ∀ p ∈ st.roles,
        (enforce_signup_limits st now).1.signups.countP
            (fun s => s.roleName == p.1) ≤ p.2 := by
  have hperm : List.Perm (rowsByCreated st.signups) st.signups := by
    unfold rowsByCreated
    exact List.perm_insertionSort _ _
  constructor
  · rw [enforce_signups_eq]
    have heq :=
      (hperm.filter (fun s => !idMem (enforceDeleted st) s.userId)).length_eq
    rw [← heq]
    exact enforceDeleted_total st
  · intro p hp
    have hp2 : p ∈ rolesRead st.roles := by
      have hpr : List.Perm st.roles (rolesRead st.roles) := by
        unfold rolesRead
        exact (List.perm_insertionSort _ _).symm
      exact hpr.subset hp
    rw [enforce_signups_eq, List.countP_eq_length_filter, List.filter_filter]
    have heq := (hperm.filter (fun s =>
      (s.roleName == p.1) && !idMem (enforceDeleted st) s.userId)).length_eq
    rw [← heq]
    exact enforceDeleted_per_role st p hp2

/-- C1 witness: the §8 scenario — after enforce, at most 2 signups remain
and at most 1 of them is a tank. -/
theorem enforce_capacity_bounds_witness :
    (enforce_signup_limits scenarioState 50).1.signups.length ≤
        scenarioState.maxParticipants
    ∧ (enforce_signup_limits scenarioState 50).1.signups.countP
        (fun s => s.roleName == "tank") ≤ 1 :=
  ⟨(enforce_capacity_bounds scenarioState 50).1,
   (enforce_capacity_bounds scenarioState 50).2 ("tank", 1) (by decide)⟩

theorem roleOverflowPass_empty (signups : List SignupRow)
    (L : List (String × Nat))
    (hA : ∀ p ∈ L, signups.countP (fun s => s.roleName == p.1) ≤ p.2) :
    roleOverflowPass signups L ([], []) = ([], []) := by
  induction L with
  | nil => rfl
  | cons hd rest ih =>
      obtain ⟨name, cap⟩ := hd
      have hfilt : signups.filter (fun s => s.roleName == name &&
          !idMem [] s.userId) = signups.filter (fun s => s.roleName == name) :=
        List.filter_congr (fun x _ => by simp [idMem])
      have hlen : (signups.filter (fun s => s.roleName == name &&
          !idMem [] s.userId)).length ≤ cap := by
        rw [hfilt, ← List.countP_eq_length_filter]
        exact hA (name, cap) (List.mem_cons_self _ _)
      simp only [roleOverflowPass]
      rw [if_neg (by omega)]
      exact ih (fun p hp => hA p (List.mem_cons_of_mem _ hp))

theorem unknownRolePass_empty (roles : List (String × Nat))
    (ss : List SignupRow)
    (hB : ∀ s ∈ ss, (lookupRole roles s.roleName).isSome = true) :
    unknownRolePass roles ss ([], []) = ([], []) := by
  induction ss with
  | nil => rfl
  | cons s rest ih =>
      have hnone : (lookupRole roles s.roleName).isNone = false := by
        have := hB s (List.mem_cons_self _ _)
        cases h : lookupRole roles s.roleName with
        | none => rw [h] at this; cases this
        | some v => rfl
      simp only [unknownRolePass, idMem_nil, Bool.false_eq_true, if_false,
        hnone]
      exact ih (fun s2 hs2 => hB s2 (List.mem_cons_of_mem _ hs2))

theorem enforceFlags_empty (maxP : Nat) (roles : List (String × Nat))
    (signups : List SignupRow)
    (hA : ∀ p ∈ roles, signups.countP (fun s => s.roleName == p.1) ≤ p.2)
    (hB : ∀ s ∈ signups, (lookupRole roles s.roleName).isSome = true)
    (hC : signups.length ≤ maxP) :
    enforceFlags maxP roles signups = ([], []) := by
  unfold enforceFlags
  dsimp only
  rw [roleOverflowPass_empty signups roles hA]
  rw [unknownRolePass_empty roles signups hB]
  have hrem : signups.filter (fun s => !idMem (([], []) :
      List SignupRow × List Int).2 s.userId) = signups := by
    rw [List.filter_eq_self]
    intro a _
    simp [idMem]
  rw [hrem]
  rw [if_neg (by omega)]

/-- C4: `enforce_signup_limits` is idempotent — for every event state, a
second call right after a first one returns empty waitlisted/removed
sets and leaves the entire stored state (signups, waitlist, attendance
log, roles, capacity) unchanged. -/
theorem enforce_idempotent (st : RaidState) (now now2 : Int) :
    enforce_signup_limits (enforce_signup_limits st now).1 now2 =
      ((enforce_signup_limits st now).1, ⟨[], []⟩) := by
  have hperm1 : List.Perm (rowsByCreated st.signups) st.signups := by
    unfold rowsByCreated
    exact List.perm_insertionSort _ _
  set st2 := (enforce_signup_limits st now).1 with hst2
  have hroles : st2.roles = st.roles := enforce_roles_eq st now
  have hmaxP : st2.maxParticipants = st.maxParticipants := enforce_maxP_eq st now
  have hsignups : st2.signups =
      st.signups.filter (fun s => !idMem (enforceDeleted st) s.userId) :=
    enforce_signups_eq st now
  have hperm2 : List.Perm (rowsByCreated st2.signups) st2.signups := by
    unfold rowsByCreated
    exact List.perm_insertionSort _ _
  have hA : ∀ p ∈ rolesRead st2.roles,
      (rowsByCreated st2.signups).countP (fun s => s.roleName == p.1) ≤ p.2 := by
    intro p hp
    rw [hroles] at hp
    rw [hperm2.countP_eq, hsignups, List.countP_filter,
      List.countP_eq_length_filter]
    rw [← (hperm1.filter (fun s =>
      (s.roleName == p.1) && !idMem (enforceDeleted st) s.userId)).length_eq]
    exact enforceDeleted_per_role st p hp
  have hB : ∀ s ∈ rowsByCreated st2.signups,
      (lookupRole (rolesRead st2.roles) s.roleName).isSome = true := by
    intro s hs
    rw [hroles]
    cases hlk : lookupRole (rolesRead st.roles) s.roleName with
    | some v => rfl
    | none =>
        exfalso
        have hs2 : s ∈ st2.signups := hperm2.subset hs
        rw [hsignups] at hs2
        have hmem := List.mem_filter.mp hs2
        have hdel : s.userId ∈ enforceDeleted st := by
          apply enforceDeleted_unknown st s (hperm1.symm.subset hmem.1)
          rw [hlk]
          rfl
        have := hmem.2
        rw [Bool.not_eq_true', idMem_eq_false] at this
        exact this hdel
  have hC : (rowsByCreated st2.signups).length ≤ st2.maxParticipants := by
    rw [hperm2.length_eq, hmaxP, hsignups]
    rw [← (hperm1.filter
      (fun s => !idMem (enforceDeleted st) s.userId)).length_eq]
    exact enforceDeleted_total st
  have hflags : enforceFlags st2.maxParticipants (rolesRead st2.roles)
      (rowsByCreated st2.signups) = ([], []) :=
    enforceFlags_empty _ _ _ hA hB hC
  unfold enforce_signup_limits
  dsimp only
  rw [hflags]
  rfl

/-! ## Exclusive-membership invariant lemmas (C5) -/

theorem usersOf_filter_subset (l : List SignupRow) (q : SignupRow → Bool)
    (u : Int) (hu : u ∈ usersOf (l.filter q)) : u ∈ usersOf l := by
  obtain ⟨s, hs, heq⟩ := List.mem_map.mp hu
  exact heq ▸ List.mem_map_of_mem _ (List.mem_filter.mp hs).1

theorem usersOf_map_userId (l : List SignupRow) (f : SignupRow → SignupRow)
    (hf : ∀ s, (f s).userId = s.userId) : usersOf (l.map f) = usersOf l := by
  unfold usersOf
  rw [List.map_map]
  exact List.map_congr_left (fun s _ => hf s)

theorem not_mem_usersOf_filter_ne (l : List SignupRow) (u : Int) :
    u ∉ usersOf (l.filter (fun w => !(w.userId == u))) := by
  intro hmem
  obtain ⟨s, hs, heq⟩ := List.mem_map.mp hmem
  have hp := (List.mem_filter.mp hs).2
  rw [Bool.not_eq_true'] at hp
  rw [heq] at hp
  simp at hp

theorem not_mem_usersOf_filter_del (l : List SignupRow) (del : List Int)
    (u : Int) (hu : u ∈ del) :
    u ∉ usersOf (l.filter (fun s => !idMem del s.userId)) := by
  intro hmem
  obtain ⟨s, hs, heq⟩ := List.mem_map.mp hmem
  have hp := (List.mem_filter.mp hs).2
  rw [Bool.not_eq_true', idMem_eq_false] at hp
  apply hp
  rw [heq]
  exact hu

theorem find?_none_not_mem_users (l : List SignupRow) (u : Int)
    (h : l.find? (fun s => s.userId == u) = none) : u ∉ usersOf l := by
  intro hmem
  obtain ⟨s, hs, heq⟩ := List.mem_map.mp hmem
  apply List.find?_eq_none.mp h s hs
  simp [heq]

theorem excl_shrink (st st2 : RaidState)
    (hs : ∀ u, u ∈ usersOf st2.signups → u ∈ usersOf st.signups)
    (hw : ∀ u, u ∈ usersOf st2.waitlist → u ∈ usersOf st.waitlist)
    (h : ExclusiveMembership st) : ExclusiveMembership st2 :=
  fun u hu => h u ⟨hs u hu.1, hw u hu.2⟩

theorem remove_signup_waitlist (st : RaidState) (u : Int) (now : Int) :
    (remove_signup st u now).waitlist = st.waitlist := by
  unfold remove_signup
  split <;> rfl

theorem remove_signup_signups (st : RaidState) (u : Int) (now : Int) :
    (remove_signup st u now).signups =
      st.signups.filter (fun s => !(s.userId == u)) := by
  unfold remove_signup
  split <;> rfl

theorem remove_waitlist_waitlist (st : RaidState) (u : Int) (b : Bool)
    (now : Int) :
    (remove_waitlist_entry st u b now).waitlist =
      st.waitlist.filter (fun w => !(w.userId == u)) := by
  unfold remove_waitlist_entry
  split <;> rfl

theorem excl_remove_signup (st : RaidState) (u : Int) (now : Int)
    (h : ExclusiveMembership st) :
    ExclusiveMembership (remove_signup st u now) := by
  refine excl_shrink st _ ?_ ?_ h
  · intro v hv
    rw [remove_signup_signups] at hv
    exact usersOf_filter_subset _ _ _ hv
  · intro v hv
    rw [remove_signup_waitlist] at hv
    exact hv

theorem excl_remove_waitlist (st : RaidState) (u : Int) (b : Bool) (now : Int)
    (h : ExclusiveMembership st) :
    ExclusiveMembership (remove_waitlist_entry st u b now) := by
  refine excl_shrink st _ ?_ ?_ h
  · intro v hv
    rw [remove_waitlist_signups] at hv
    exact hv
  · intro v hv
    rw [remove_waitlist_waitlist] at hv
    exact usersOf_filter_subset _ _ _ hv

theorem excl_update_signup_role (st : RaidState) (u : Int) (role : String)
    (now : Int) (h : ExclusiveMembership st) :
    ExclusiveMembership (update_signup_role st u role now) := by
  refine excl_shrink st _ ?_ ?_ h
  · intro v hv
    have heq : usersOf (st.signups.map (fun s =>
        if s.userId == u then { s with roleName := role } else s)) =
          usersOf st.signups :=
      usersOf_map_userId _ _ (fun s => by split <;> rfl)
    rw [show (update_signup_role st u role now).signups =
        st.signups.map (fun s =>
          if s.userId == u then { s with roleName := role } else s) from rfl,
      heq] at hv
    exact hv
  · intro v hv
    exact hv

theorem excl_update_waitlist_role (st : RaidState) (u : Int) (role : String)
    (now : Int) (h : ExclusiveMembership st) :
    ExclusiveMembership (update_waitlist_role st u role now) := by
  refine excl_shrink st _ ?_ ?_ h
  · intro v hv
    exact hv
  · intro v hv
    have heq : usersOf (st.waitlist.map (fun w =>
        if w.userId == u then { w with roleName := role } else w)) =
          usersOf st.waitlist :=
      usersOf_map_userId _ _ (fun s => by split <;> rfl)
    rw [show (update_waitlist_role st u role now).waitlist =
        st.waitlist.map (fun w =>
          if w.userId == u then { w with roleName := role } else w) from rfl,
      heq] at hv
    exact hv

theorem excl_add_signup (st : RaidState) (u : Int) (role : String)
    (c : Option Int) (now : Int) (h : ExclusiveMembership st)
    (hu : u ∉ usersOf st.waitlist) :
    ExclusiveMembership (add_signup st u role c now) := by
  intro v hv
  obtain ⟨hvs, hvw⟩ := hv
  rw [show (add_signup st u role c now).signups =
      st.signups ++ [⟨u, role, orNow c now⟩] from rfl] at hvs
  unfold usersOf at hvs
  rw [List.map_append] at hvs
  rcases List.mem_append.mp hvs with h1 | h1
  · exact h v ⟨h1, hvw⟩
  · have hvu : v = u := by simpa using h1
    rw [hvu] at hvw
    exact hu hvw

theorem excl_add_waitlist (st : RaidState) (u : Int) (role : String)
    (c : Option Int) (now : Int) (h : ExclusiveMembership st)
    (hu : u ∉ usersOf st.signups) :
    ExclusiveMembership (add_waitlist_entry st u role c now) := by
  have hsg : (add_waitlist_entry st u role c now).signups = st.signups :=
    add_waitlist_signups st u role c now
  cases hfind : st.waitlist.find? (fun w => w.userId == u) with
  | some existing =>
      intro v hv
      obtain ⟨hvs, hvw⟩ := hv
      have hwl : (add_waitlist_entry st u role c now).waitlist =
          st.waitlist.map (fun w => if w.userId == u then
            { w with
                roleName := role,
                createdAt := min existing.createdAt (orNow c now) }
            else w) := by
        unfold add_waitlist_entry
        rw [hfind]
      rw [hwl, usersOf_map_userId _ _ (fun s => by split <;> rfl)] at hvw
      rw [hsg] at hvs
      exact h v ⟨hvs, hvw⟩
  | none =>
      intro v hv
      obtain ⟨hvs, hvw⟩ := hv
      have hwl : (add_waitlist_entry st u role c now).waitlist =
          st.waitlist ++ [⟨u, role, orNow c now⟩] := by
        unfold add_waitlist_entry
        rw [hfind]
      rw [hsg] at hvs
      rw [hwl] at hvw
      unfold usersOf at hvw
      rw [List.map_append] at hvw
      rcases List.mem_append.mp hvw with h1 | h1
      · exact h v ⟨hvs, h1⟩
      · have hvu : v = u := by simpa using h1
        rw [hvu] at hvs
        exact hu hvs

theorem promoteLoop_excl (maxP : Nat) (roles : List (String × Nat))
    (now : Int) (entries : List SignupRow) :
    ∀ (st : RaidState) (counts : String → Nat) (total : Nat)
      (promoted : List (Int × String)), ExclusiveMembership st →
      ExclusiveMembership
        (promoteLoop maxP roles now entries st counts total promoted).1 := by
  induction entries with
  | nil => intro st _ _ _ h; exact h
  | cons e rest ih =>
      intro st counts total promoted h
      have hrm : ∀ b : Bool,
          ExclusiveMembership (remove_waitlist_entry st e.userId b now) :=
        fun b => excl_remove_waitlist st e.userId b now h
      cases hrole : lookupRole roles e.roleName with
      | none =>
          simp only [promoteLoop, hrole]
          exact ih _ _ _ _ (hrm false)
      | some cap =>
          simp only [promoteLoop, hrole]
          by_cases h0 : cap = 0
          · rw [if_pos h0]
            exact ih _ _ _ _ (hrm false)
          · rw [if_neg h0]
            by_cases h1 : maxP ≤ total
            · rw [if_pos h1]
              exact h
            · rw [if_neg h1]
              by_cases h2 : cap ≤ counts e.roleName
              · rw [if_pos h2]
                exact ih _ _ _ _ h
              · rw [if_neg h2]
                apply ih
                apply excl_add_signup _ _ _ _ _ (hrm true)
                rw [remove_waitlist_waitlist]
                exact not_mem_usersOf_filter_ne st.waitlist e.userId

theorem promote_waitlist_excl (st : RaidState) (now : Int)
    (h : ExclusiveMembership st) :
    ExclusiveMembership (promote_waitlist st now).1 := by
  unfold promote_waitlist
  dsimp only
  split
  · exact h
  · exact promoteLoop_excl _ _ _ _ _ _ _ _ h

theorem waitlistConversion_excl (roles : List (String × Nat)) (now : Int)
    (l : List SignupRow) :
    ∀ (st : RaidState) (tr : List SignupRow),
      (∀ e ∈ l, e.userId ∉ usersOf st.signups) → ExclusiveMembership st →
      ExclusiveMembership (waitlistConversion roles now l st tr).1 := by
  induction l with
  | nil => intro st tr _ h; exact h
  | cons e rest ih =>
      intro st tr hnotin h
      cases hrole : lookupRole roles e.roleName with
      | none =>
          simp only [waitlistConversion, hrole]
          exact ih st (tr ++ [e]) (fun e2 he2 => hnotin e2 (List.mem_cons_of_mem _ he2)) h
      | some cap =>
          simp only [waitlistConversion, hrole]
          split
          · apply ih
            · intro e2 he2
              rw [add_waitlist_signups]
              exact hnotin e2 (List.mem_cons_of_mem _ he2)
            · exact excl_add_waitlist st e.userId e.roleName (some e.createdAt)
                now h (hnotin e (List.mem_cons_self _ _))
          · exact ih st (tr ++ [e])
              (fun e2 he2 => hnotin e2 (List.mem_cons_of_mem _ he2)) h

theorem enforce_excl (st : RaidState) (now : Int)
    (h : ExclusiveMembership st) :
    ExclusiveMembership (enforce_signup_limits st now).1 := by
  unfold enforce_signup_limits
  dsimp only
  split
  · exact h
  · apply waitlistConversion_excl
    · intro e he
      apply not_mem_usersOf_filter_del
      exact List.mem_map_of_mem _ (List.mem_append_left _ he)
    · refine excl_shrink st _ ?_ ?_ h
      · intro v hv
        exact usersOf_filter_subset _ _ _ hv
      · intro v hv
        exact hv

theorem handle_unsubscribe_excl (st : RaidState) (u : Int) (now : Int)
    (h : ExclusiveMembership st) :
    ExclusiveMembership (handle_unsubscribe st u now) := by
  unfold handle_unsubscribe
  exact promote_waitlist_excl _ _
    (excl_remove_waitlist _ _ _ _ (excl_remove_signup _ _ _ h))

theorem replace_roles_excl (st : RaidState) (newRoles : List (String × Nat))
    (now : Int) (h : ExclusiveMembership st) :
    ExclusiveMembership (replace_roles st newRoles now) := by
  unfold replace_roles
  dsimp only
  refine excl_shrink st _ ?_ ?_ h
  · intro v hv
    exact usersOf_filter_subset _ _ _ hv
  · intro v hv
    exact usersOf_filter_subset _ _ _ hv

theorem handle_signup_excl (st : RaidState) (u : Int) (role : String)
    (now : Int) (h : ExclusiveMembership st) :
    ExclusiveMembership (handle_signup st u role now) := by
  unfold handle_signup
  dsimp only
  split
  · exact h
  · split
    · rename_i cur hcur
      split
      · exact h
      · repeat' split
        all_goals first
          | exact h
          | exact promote_waitlist_excl _ _ (excl_update_signup_role _ _ _ _ h)
    · rename_i hcur
      split
      · rename_i we hwe
        repeat' split
        all_goals first
          | exact excl_update_waitlist_role _ _ _ _ h
          | (apply promote_waitlist_excl
             apply excl_add_signup _ _ _ _ _ (excl_remove_waitlist _ _ _ _ h)
             rw [remove_waitlist_waitlist]
             exact not_mem_usersOf_filter_ne st.waitlist u)
      · rename_i hwe
        repeat' split
        all_goals first
          | (apply promote_waitlist_excl
             apply excl_add_signup _ _ _ _ _ h
             exact find?_none_not_mem_users st.waitlist u hwe)
          | (apply excl_add_waitlist _ _ _ _ _ h
             exact find?_none_not_mem_users st.signups u hcur)

/-- C5: every public roster operation (request/join, leave, enforce,
promotion sweep, role replacement), applied to a state in which no user
is simultaneously signed up and waitlisted, yields a state with the same
property: each user is in exactly one of signed-up, waitlisted, or
neither. -/
theorem roster_ops_exclusive (st : RaidState) (op : RosterOp)
    (h : ExclusiveMembership st) :
    ExclusiveMembership (applyRosterOp st op) := by
  cases op with
  | signupReq u r n => exact handle_signup_excl st u r n h
  | leave u n => exact handle_unsubscribe_excl st u n h
  | enforceLimits n => exact enforce_excl st n h
  | promoteSweep n => exact promote_waitlist_excl st n h
  | rolesReplace rs n => exact replace_roles_excl st rs n h

/-- C5 witness: enforcing limits on the §8 scenario state (empty
waitlist, hence trivially exclusive) keeps the exclusivity invariant. -/
theorem roster_ops_exclusive_witness :
    ExclusiveMembership (applyRosterOp scenarioState (RosterOp.enforceLimits 50)) :=
  roster_ops_exclusive scenarioState (RosterOp.enforceLimits 50)
    (fun u hu => absurd hu.2 (List.not_mem_nil u))

end RaidBot

